import Mathlib

/-!
Shallow embedding of the Dentropic clinic-operations engine.

Sources embedded:
- src/src/security/auth.ts        (roles, permissions, assertAuthorized, requirePurpose)
- src/index.ts                    (runWithAuthAudit)
- src/src/store/clinicOpsRepository.ts (AuditLog: append-only event list)
- src/unnamed/part_001            (ClinicOpsService: overlap, clampPercent,
                                   estimateCategoryFromAdaCode, bucketByAge,
                                   createTimeSlots, findOpenSlots,
                                   estimateTreatmentPlan item computation,
                                   getAccountSnapshot, upsertFamily)
- src/src/store/memoryClinicOpsRepository.ts (family store: JS Map keyed by id,
                                   insertion-ordered values)

Modelling conventions: machine numbers used for money/percentages become rational
values (the claims' concrete instances are exact in binary or decimal either way);
ISO-8601 timestamps compared lexicographically within one day become minutes since
midnight (Nat); epoch milliseconds become Int; JS Math.floor on a division of
Ints becomes Int.fdiv; Number(x.toFixed(2)) becomes round2 (round half up at the
second decimal — the claims' instances are tie-free); crypto.randomUUID() and
Date.now() are passed in as explicit parameters.
-/

deriving instance DecidableEq for Except

namespace Dentropic

/-! Roles and permissions, from src/src/security/auth.ts. -/

inductive UserRole where
| admin
| dentist
| hygienist
| assistant
| frontDesk
| billing
| readonly
| system
deriving DecidableEq, Repr

def roleName : UserRole → String
| .admin => "admin"
| .dentist => "dentist"
| .hygienist => "hygienist"
| .assistant => "assistant"
| .frontDesk => "front-desk"
| .billing => "billing"
| .readonly => "readonly"
| .system => "system"

def allPermissions : List String :=
["patient:read", "patient:write",
 "appointment:read", "appointment:write",
 "insurance:read", "insurance:write",
 "treatment:read", "treatment:write",
 "ledger:read", "ledger:write",
 "chart:read", "chart:write",
 "recall:read", "recall:write",
 "task:read", "task:write",
 "communication:read", "communication:write",
 "image:read", "image:write", "image:analyze",
 "migration:write",
 "audit:read"]

def rolePermissions : UserRole → List String
| .admin => allPermissions
| .system => allPermissions
| .dentist =>
  ["patient:read", "patient:write",
   "appointment:read", "appointment:write",
   "insurance:read",
   "treatment:read", "treatment:write",
   "ledger:read",
   "chart:read", "chart:write",
   "recall:read", "recall:write",
   "task:read", "task:write",
   "communication:read", "communication:write",
   "image:read", "image:write", "image:analyze"]
| .hygienist =>
  ["patient:read",
   "appointment:read", "appointment:write",
   "insurance:read",
   "treatment:read",
   "chart:read", "chart:write",
   "recall:read", "recall:write",
   "task:read", "task:write",
   "communication:read", "communication:write",
   "image:read", "image:write", "image:analyze"]
| .assistant =>
  ["patient:read",
   "appointment:read", "appointment:write",
   "treatment:read",
   "chart:read", "chart:write",
   "task:read", "task:write",
   "communication:read", "communication:write",
   "image:read", "image:write", "image:analyze"]
| .frontDesk =>
  ["patient:read", "patient:write",
   "appointment:read", "appointment:write",
   "insurance:read",
   "recall:read", "recall:write",
   "task:read", "task:write",
   "communication:read", "communication:write"]
| .billing =>
  ["patient:read",
   "appointment:read",
   "insurance:read", "insurance:write",
   "treatment:read",
   "ledger:read", "ledger:write",
   "communication:read", "communication:write",
   "task:read", "task:write"]
| .readonly =>
  ["patient:read",
   "appointment:read",
   "insurance:read",
   "treatment:read",
   "ledger:read",
   "chart:read",
   "recall:read",
   "task:read",
   "communication:read",
   "image:read"]

structure Actor where
  userId : String
  role : UserRole
  purpose : Option String
deriving DecidableEq, Repr

def hasPermission (role : UserRole) (permission : String) : Bool :=
  (rolePermissions role).contains permission

def assertAuthorized (actor : Actor) (permission : String) : Except String Unit :=
  if hasPermission actor.role permission then
    .ok ()
  else
    .error ("Actor " ++ actor.userId ++ " (" ++ roleName actor.role ++
            ") is not authorized for " ++ permission)

def purposeMessage (requiredNote : String) : String :=
  "Purpose of use is required (" ++ requiredNote ++
  "). Provide actor.purpose with at least 8 characters."

/-- Model of String.prototype.trim: drop whitespace characters from both ends
of the character sequence. -/
def jsTrim (s : String) : String :=
  String.mk (((s.data.dropWhile Char.isWhitespace).reverse.dropWhile
    Char.isWhitespace).reverse)

def requirePurpose (actor : Actor) (requiredNote : String) : Except String Unit :=
  match actor.purpose with
  | none => .error (purposeMessage requiredNote)
  | some p =>
    if p = "" then .error (purposeMessage requiredNote)
    else if (jsTrim p).length < 8 then .error (purposeMessage requiredNote)
    else .ok ()

/-! Audit log and the authorized-action wrapper, from src/index.ts and
src/src/store/clinicOpsRepository.ts. AuditLog.log appends one event and the
event id / timestamp (crypto.randomUUID(), new Date()) are not modelled since
no claim depends on them. Metadata values already arrive as strings here
(metadataToStrings is the identity on string-valued metadata). -/

structure AuditEvent where
  actorUserId : String
  actorRole : UserRole
  action : String
  resourceType : String
  resourceId : Option String
  success : Bool
  reason : Option String
  metadata : List (String × String)
deriving DecidableEq, Repr

structure ToolRunOptions where
  actor : Actor
  permission : String
  action : String
  resourceType : String
  resourceId : Option String
  requirePurposeOnRead : Bool
  metadata : List (String × String)
deriving DecidableEq, Repr

def mkAuditEvent (options : ToolRunOptions) (success : Bool) (reason : Option String) :
    AuditEvent :=
  { actorUserId := options.actor.userId
    actorRole := options.actor.role
    action := options.action
    resourceType := options.resourceType
    resourceId := options.resourceId
    success := success
    reason := reason
    metadata := options.metadata }

/-- Model of runWithAuthAudit (src/index.ts lines 141-174): the unit of work is
its outcome (an Except value), the audit log is an explicit event list, and the
requirePurposeOnSensitiveReads configuration flag is a parameter. Authorization
and the optional purpose check run before the try block, so their failures
propagate without touching the log; inside the try, success appends a
success=true event and returns the value, failure appends a success=false event
carrying the error message and re-raises the error. -/
def runWithAuthAudit {α : Type} (requirePurposeOnSensitiveReads : Bool)
    (options : ToolRunOptions) (fn : Except String α) (log : List AuditEvent) :
    Except String α × List AuditEvent :=
  match assertAuthorized options.actor options.permission with
  | .error e => (.error e, log)
  | .ok _ =>
    match (if options.requirePurposeOnRead && requirePurposeOnSensitiveReads then
            requirePurpose options.actor "sensitive read operation"
          else .ok ()) with
    | .error e => (.error e, log)
    | .ok _ =>
      match fn with
      | .ok v => (.ok v, log ++ [mkAuditEvent options true none])
      | .error e => (.error e, log ++ [mkAuditEvent options false (some e)])

/-! Scheduling engine, from src/unnamed/part_001: overlap, createTimeSlots,
findOpenSlots. Times are minutes since midnight of the requested day; the
source compares ISO-8601 strings of one fixed day, which agrees with numeric
comparison of the underlying instants. -/

def overlap (startA endA startB endB : Nat) : Bool :=
  decide (startA < endB) && decide (endA > startB)

inductive BlockType where
| available
| booked
| break_
| hold
deriving DecidableEq, Repr

structure ScheduleBlock where
  startAt : Nat
  endAt : Nat
  blockType : BlockType
deriving DecidableEq, Repr

structure Appointment where
  startAt : Nat
  endAt : Nat
deriving DecidableEq, Repr

structure Slot where
  startAt : Nat
  endAt : Nat
deriving DecidableEq, Repr

/-- Loop body of ClinicOpsService.createTimeSlots, compiled with an explicit
step budget so that the recursion is structural: each iteration pushes one slot
and advances the cursor by intervalMinutes while cursor + duration ≤ end. -/
def createTimeSlotsGo (steps cursor endT durationMinutes intervalMinutes : Nat) :
    List Slot :=
  match steps with
  | 0 => []
  | steps + 1 =>
    if cursor + durationMinutes ≤ endT then
      ⟨cursor, cursor + durationMinutes⟩ ::
        createTimeSlotsGo steps (cursor + intervalMinutes) endT durationMinutes
          intervalMinutes
    else
      []

/-- Model of ClinicOpsService.createTimeSlots: a while loop pushing slots of
length durationMinutes from the cursor, stepping by intervalMinutes, while
cursor + duration ≤ end. The source loop is only reached with a positive
interval (findOpenSlots replaces 0 by 15), where the budget endT + 1 - cursor
covers every iteration (each step advances the cursor by at least one and runs
only while cursor ≤ endT); createTimeSlots_closed_form below confirms the
budget never cuts the loop short. -/
def createTimeSlots (cursor endT durationMinutes intervalMinutes : Nat) : List Slot :=
  if 0 < intervalMinutes then
    createTimeSlotsGo (endT + 1 - cursor) cursor endT durationMinutes intervalMinutes
  else
    []

def isBlocking (block : ScheduleBlock) : Bool :=
  block.blockType == .booked || block.blockType == .break_ || block.blockType == .hold

/-- Filter body of findOpenSlots: reject a slot when available blocks exist and
none contains it; reject on overlap with an appointment; reject on overlap with
a blocking block; keep otherwise. -/
def slotAllowed (availableBlocks blockingBlocks : List ScheduleBlock)
    (appointments : List Appointment) (slot : Slot) : Bool :=
  if availableBlocks.length > 0 &&
      !(availableBlocks.any fun block =>
          decide (block.startAt ≤ slot.startAt) && decide (slot.endAt ≤ block.endAt)) then
    false
  else if appointments.any fun appointment =>
      overlap slot.startAt slot.endAt appointment.startAt appointment.endAt then
    false
  else if blockingBlocks.any fun block =>
      overlap slot.startAt slot.endAt block.startAt block.endAt then
    false
  else
    true

/-- Model of ClinicOpsService.findOpenSlots. The appointment and schedule-block
lists stand for the day's fetches for the requested provider;
input.intervalMinutes || 15 becomes the zero test on intervalMinutes. -/
def findOpenSlots (durationMinutes intervalMinutes startHour endHour : Nat)
    (appointments : List Appointment) (providerBlocks : List ScheduleBlock) :
    List Slot :=
  let interval := if intervalMinutes == 0 then 15 else intervalMinutes
  let baseSlots := createTimeSlots (startHour * 60) (endHour * 60) durationMinutes interval
  let availableBlocks := providerBlocks.filter fun block => block.blockType == .available
  let blockingBlocks := providerBlocks.filter isBlocking
  baseSlots.filter (slotAllowed availableBlocks blockingBlocks appointments)

/-! Benefit estimation engine, from src/unnamed/part_001: clampPercent,
estimateCategoryFromAdaCode, and the per-item computation inside
estimateTreatmentPlan. Money and percentages are rationals; toFixed(2) becomes
round2. ADA codes are character lists; String.prototype.startsWith becomes
List.IsPrefix on the uppercased characters. -/

def round2 (x : ℚ) : ℚ := ((⌊x * 100 + 1 / 2⌋ : ℤ) : ℚ) / 100

def clampPercent (value : Option ℚ) (fallback : ℚ) : ℚ :=
  match value with
  | none => fallback
  | some v => max 0 (min 100 v)

def estimateCategoryFromAdaCode (adaCode : List Char) : String :=
  let code := adaCode.map Char.toUpper
  if ['D', '1'] <+: code ∨ ['T', '1'] <+: code then "preventive"
  else if ['D', '3'] <+: code ∨ ['T', '3'] <+: code ∨ ['D', '2'] <+: code then "restorative"
  else if ['D', '3', '3'] <+: code ∨ ['D', '3', '4'] <+: code then "endodontic"
  else if ['D', '4'] <+: code then "periodontal"
  else if ['D', '7'] <+: code then "oralSurgery"
  else if ['D', '2', '7'] <+: code then "crowns"
  else if ['D', '5'] <+: code ∨ ['D', '6'] <+: code then "prosthodontics"
  else "restorative"

structure InsurancePlan where
  benefitPercentages : String → Option ℚ

structure TreatmentPlanItem where
  adaCode : List Char
  fee : ℚ
  allowedFee : Option ℚ
  insuranceEstPrimary : ℚ
  insuranceEstSecondary : ℚ
  patientEst : ℚ

/-- Per-item body of ClinicOpsService.estimateTreatmentPlan: the record written
back through repo.saveTreatmentPlanItem, with the three derived fields replaced
by the rounded waterfall results. The optional chaining
plan?.benefitPercentages?.[category] becomes Option.bind. -/
def estimateItemRecord (primary secondary : Option InsurancePlan)
    (item : TreatmentPlanItem) : TreatmentPlanItem :=
  let category := estimateCategoryFromAdaCode item.adaCode
  let allowed := match item.allowedFee with
    | some a => a
    | none => item.fee
  let primaryPct := clampPercent (primary.bind fun p => p.benefitPercentages category) 0
  let primaryEstimate := allowed * primaryPct / 100
  let remainingAfterPrimary := max 0 (allowed - primaryEstimate)
  let secondaryPct := clampPercent (secondary.bind fun p => p.benefitPercentages category) 0
  let secondaryEstimate := remainingAfterPrimary * secondaryPct / 100
  let patientEstimate := max 0 (item.fee - primaryEstimate - secondaryEstimate)
  { item with
      insuranceEstPrimary := round2 primaryEstimate
      insuranceEstSecondary := round2 secondaryEstimate
      patientEst := round2 patientEstimate }

/-! Account ledger engine, from src/unnamed/part_001: bucketByAge and
getAccountSnapshot. Entry dates and the evaluation instant are epoch
milliseconds (Int); Math.floor of the millisecond quotient is Int.fdiv. -/

inductive LedgerEntryType where
| charge
| payment
| adjustment
| claim
| insurancePayment
deriving DecidableEq, Repr

structure LedgerEntry where
  type : LedgerEntryType
  amount : ℚ
  entryMs : Int
deriving DecidableEq, Repr

inductive AgingBucket where
| b0to30
| b31to60
| b61to90
| over90
deriving DecidableEq, Repr

def dayMs : Int := 1000 * 60 * 60 * 24

def bucketByAge (nowMs entryMs : Int) : AgingBucket :=
  let ageDays := (nowMs - entryMs).fdiv dayMs
  if ageDays ≤ 30 then .b0to30
  else if ageDays ≤ 60 then .b31to60
  else if ageDays ≤ 90 then .b61to90
  else .over90

structure SnapAcc where
  aging : AgingBucket → ℚ
  charges : ℚ
  credits : ℚ
  pendingInsurance : ℚ

def snapStep (nowMs : Int) (acc : SnapAcc) (entry : LedgerEntry) : SnapAcc :=
  match entry.type with
  | .charge | .adjustment =>
    let bucket := bucketByAge nowMs entry.entryMs
    { acc with
        charges := acc.charges + entry.amount
        aging := fun b => if b = bucket then acc.aging b + entry.amount else acc.aging b }
  | .payment | .insurancePayment =>
    { acc with credits := acc.credits + entry.amount }
  | .claim =>
    { acc with pendingInsurance := acc.pendingInsurance + entry.amount }

structure AccountTotals where
  charges : ℚ
  credits : ℚ
  pendingInsurance : ℚ
  estimatedBalance : ℚ
deriving DecidableEq, Repr

structure AccountSnapshot where
  aging : AgingBucket → ℚ
  totals : AccountTotals

/-- Model of ClinicOpsService.getAccountSnapshot over the patient's ledger
entries: the for loop is a left fold of snapStep, then every aggregate is
rounded to two decimals and estimatedBalance is charges - credits -
pendingInsurance rounded. -/
def getAccountSnapshot (nowMs : Int) (entries : List LedgerEntry) : AccountSnapshot :=
  let acc := entries.foldl (snapStep nowMs) ⟨fun _ => 0, 0, 0, 0⟩
  { aging := fun b => round2 (acc.aging b)
    totals :=
      { charges := round2 acc.charges
        credits := round2 acc.credits
        pendingInsurance := round2 acc.pendingInsurance
        estimatedBalance := round2 (acc.charges - acc.credits - acc.pendingInsurance) } }

/-! Family/household linker, from src/unnamed/part_001 (upsertFamily) over the
in-memory repository (src/src/store/memoryClinicOpsRepository.ts): the family
store is a JS Map keyed by family id whose values iterate in insertion order,
modelled as a list where save replaces the entry with the same id in place or
appends. Patients are modelled by their ids (getPatient succeeds iff the id is
present). crypto.randomUUID() and the shared nowIso() timestamp are parameters. -/

structure FamilyMember where
  patientId : String
  relationToGuarantor : String
  isGuarantor : Bool
deriving DecidableEq, Repr

structure FamilyRecord where
  id : String
  guarantorPatientId : String
  members : List FamilyMember
  createdAt : Nat
  updatedAt : Nat
deriving DecidableEq, Repr

structure OpsState where
  patients : List String
  families : List FamilyRecord
deriving DecidableEq, Repr

def findFamilyById (s : OpsState) (familyId : String) : Option FamilyRecord :=
  s.families.find? fun f => f.id == familyId

def findFamilyByGuarantor (s : OpsState) (guarantorPatientId : String) :
    Option FamilyRecord :=
  s.families.find? fun f => f.guarantorPatientId == guarantorPatientId

def saveList (l : List FamilyRecord) (f : FamilyRecord) : List FamilyRecord :=
  if l.any fun g => g.id == f.id then
    l.map fun g => if g.id == f.id then f else g
  else
    l ++ [f]

def saveFamily (s : OpsState) (f : FamilyRecord) : OpsState :=
  { s with families := saveList s.families f }

structure UpsertFamilyInput where
  guarantorPatientId : String
  memberPatientId : String
  relationToGuarantor : String
  familyId : Option String
deriving DecidableEq, Repr

/-- Family resolution order of upsertFamily: explicit familyId lookup first when
supplied, then lookup by guarantor. -/
def locateFamily (s : OpsState) (familyId : Option String)
    (guarantorPatientId : String) : Option FamilyRecord :=
  match familyId with
  | some fid =>
    match findFamilyById s fid with
    | some f => some f
    | none => findFamilyByGuarantor s guarantorPatientId
  | none => findFamilyByGuarantor s guarantorPatientId

def newFamily (input : UpsertFamilyInput) (freshId : String) (now : Nat) :
    FamilyRecord :=
  { id := input.familyId.getD freshId
    guarantorPatientId := input.guarantorPatientId
    members := [⟨input.guarantorPatientId, "self", true⟩]
    createdAt := now
    updatedAt := now }

/-- Relation update of the first member entry matching the patient id,
mirroring members.find(...) followed by in-place mutation of the found entry. -/
def updateFirstMember : List FamilyMember → String → String → List FamilyMember
| [], _, _ => []
| m :: rest, patientId, relation =>
  if m.patientId == patientId then
    { m with relationToGuarantor := relation } :: rest
  else
    m :: updateFirstMember rest patientId relation

/-- Member merge of upsertFamily: update the existing entry's relation in place
when one matches, otherwise append a new non-guarantor member. -/
def applyMember (members : List FamilyMember) (patientId relation : String) :
    List FamilyMember :=
  if members.any fun m => m.patientId == patientId then
    updateFirstMember members patientId relation
  else
    members ++ [⟨patientId, relation, false⟩]

/-- Model of ClinicOpsService.upsertFamily: fail when either patient is
missing; locate the family by id then guarantor, creating a guarantor-seeded
one when absent; merge the member; refresh updatedAt; save. Returns the saved
record and the post-call state (unchanged on failure, as the source throws
before any write). -/
def upsertFamily (input : UpsertFamilyInput) (freshId : String) (now : Nat)
    (s : OpsState) : Except String FamilyRecord × OpsState :=
  if input.guarantorPatientId ∈ s.patients ∧ input.memberPatientId ∈ s.patients then
    let family := (locateFamily s input.familyId input.guarantorPatientId).getD
      (newFamily input freshId now)
    let updated := { family with
      members := applyMember family.members input.memberPatientId
        input.relationToGuarantor
      updatedAt := now }
    (.ok updated, saveFamily s updated)
  else
    (.error "Guarantor and member must both exist", s)

/-! Shared helper definitions and lemmas. -/

/-- Spec-side reading of a *:write permission: the permission string ends in
the suffix ":write". -/
def isWritePermission (p : String) : Bool :=
  ":write".data.reverse.isPrefixOf p.data.reverse

theorem hasPermission_iff (role : UserRole) (p : String) :
    hasPermission role p = true ↔ p ∈ rolePermissions role := by
  simp [hasPermission, List.elem_iff]

theorem round2_eq_of_mul (x : ℚ) (n : ℤ) (h : x * 100 = (n : ℚ)) : round2 x = x := by
  have hx : x = (n : ℚ) / 100 := by field_simp at h ⊢; linarith
  have hfl : ⌊(n : ℚ) + 1 / 2⌋ = n := by
    rw [add_comm, Int.floor_add_int]
    norm_num
  rw [round2, h, hfl, hx]

/-! Claim theorems. -/

theorem assertAuthorized_ok_iff (a : Actor) (p : String) :
    assertAuthorized a p = .ok () ↔ p ∈ rolePermissions a.role := by
  by_cases h : hasPermission a.role p
  · simp [assertAuthorized, h, (hasPermission_iff a.role p).mp h]
  · have hmem : p ∉ rolePermissions a.role := fun hm =>
      h ((hasPermission_iff a.role p).mpr hm)
    simp [assertAuthorized, h, hmem]

/-- Claim C4: assertAuthorized succeeds exactly when the permission is in the
fixed role table; readonly never passes a *:write check; admin and system pass
every permission check. -/
theorem assertAuthorized_policy :
    (∀ (a : Actor) (p : String),
      assertAuthorized a p = .ok () ↔ p ∈ rolePermissions a.role) ∧
    (∀ p : String, isWritePermission p = true → hasPermission .readonly p = false) ∧
    (∀ (a : Actor), (a.role = .admin ∨ a.role = .system) →
      ∀ p ∈ allPermissions, assertAuthorized a p = .ok ()) := by
  refine ⟨assertAuthorized_ok_iff, ?_, ?_⟩
  · intro p hw
    by_contra h
    have hperm : hasPermission .readonly p = true := by
      revert h
      cases hasPermission .readonly p <;> simp
    have hp : p ∈ rolePermissions .readonly := (hasPermission_iff _ p).mp hperm
    simp only [rolePermissions, List.mem_cons, List.not_mem_nil, or_false] at hp
    rcases hp with rfl | rfl | rfl | rfl | rfl | rfl | rfl | rfl | rfl | rfl <;>
      exact absurd hw (by decide)
  · intro a ha p hp
    refine (assertAuthorized_ok_iff a p).mpr ?_
    rcases ha with h | h <;> rw [h] <;> exact hp

/-- Witness for claim C4 at concrete inputs: readonly is denied patient:write,
admin is granted it. -/
theorem assertAuthorized_policy_witness :
    isWritePermission "patient:write" = true ∧
    hasPermission .readonly "patient:write" = false ∧
    assertAuthorized ⟨"a1", .admin, none⟩ "patient:write" = .ok () := by
  refine ⟨by decide, assertAuthorized_policy.2.1 "patient:write" (by decide), ?_⟩
  exact assertAuthorized_policy.2.2 ⟨"a1", .admin, none⟩ (Or.inl rfl) "patient:write"
    (by decide)

/-- Counterexample for claim C10 as stated: the purpose string of the space
padded form has 8 characters, yet requirePurpose throws, because the source
trims the purpose before measuring its length. -/
theorem requirePurpose_eight_char_counterexample :
    requirePurpose ⟨"u1", .dentist, some "a       "⟩ "sensitive read operation" =
      .error (purposeMessage "sensitive read operation") ∧
    ("a       " : String).length = 8 := by
  constructor <;> decide

/-- Claim C10 as amended: requirePurpose fails exactly when the purpose is
absent, empty, or has fewer than 8 characters after trimming surrounding
whitespace; it succeeds exactly when the trimmed purpose has at least 8
characters. -/
theorem requirePurpose_trimmed_length :
    (∀ (u : String) (r : UserRole) (note p : String),
      requirePurpose ⟨u, r, some p⟩ note = .ok () ↔ 8 ≤ (jsTrim p).length) ∧
    (∀ (u : String) (r : UserRole) (note : String),
      requirePurpose ⟨u, r, none⟩ note = .error (purposeMessage note)) := by
  refine ⟨?_, fun u r note => rfl⟩
  intro u r note p
  simp only [requirePurpose]
  by_cases hp : p = ""
  · subst hp
    simp [jsTrim]
  · rw [if_neg hp]
    by_cases hl : (jsTrim p).length < 8
    · rw [if_pos hl]
      constructor
      · intro h
        exact absurd h (by simp)
      · intro h
        omega
    · rw [if_neg hl]
      constructor
      · intro _
        omega
      · intro _
        rfl

/-- Witness for claim C10's amended theorem at concrete inputs: a purpose with
a long enough trimmed length passes, a whitespace heavy one fails. -/
theorem requirePurpose_trimmed_length_witness :
    8 ≤ (jsTrim "  chart review for visit  ").length ∧
    requirePurpose ⟨"u1", .dentist, some "  chart review for visit  "⟩ "n" = .ok () := by
  refine ⟨by decide, ?_⟩
  exact (requirePurpose_trimmed_length.1 "u1" .dentist "n"
    "  chart review for visit  ").mpr (by decide)

/-- Counterexample for claim C1 as stated: an invocation whose authorization
fails appends no AuditEvent at all (the audit log stays empty), because
assertAuthorized runs before the try block that writes audit events. -/
theorem runWithAuthAudit_auth_failure_no_event :
    (runWithAuthAudit false
      ⟨⟨"u1", .readonly, none⟩, "patient:write", "update-patient", "patient",
        none, false, []⟩
      (Except.ok (0 : Nat)) []).2 = [] ∧
    (runWithAuthAudit false
      ⟨⟨"u1", .readonly, none⟩, "patient:write", "update-patient", "patient",
        none, false, []⟩
      (Except.ok (0 : Nat)) []).1 =
      .error "Actor u1 (readonly) is not authorized for patient:write" := by
  constructor <;> rfl

/-- Claim C1 as amended: when authorization (and the purpose check, when it
applies) passes, exactly one AuditEvent is appended regardless of the unit of
work's outcome — success=true on success with the value returned, success=false
with the error's message on failure with the original error re-raised; when
authorization or the purpose check fails, the error propagates and no event is
appended. -/
theorem runWithAuthAudit_one_event {α : Type} (cfg : Bool)
    (options : ToolRunOptions) (fn : Except String α) (log : List AuditEvent)
    (hauth : assertAuthorized options.actor options.permission = .ok ())
    (hpurp : (options.requirePurposeOnRead && cfg) = true →
      requirePurpose options.actor "sensitive read operation" = .ok ()) :
    (runWithAuthAudit cfg options fn log).2.length = log.length + 1 ∧
    (∀ v, fn = .ok v → runWithAuthAudit cfg options fn log =
      (.ok v, log ++ [mkAuditEvent options true none])) ∧
    (∀ e, fn = .error e → runWithAuthAudit cfg options fn log =
      (.error e, log ++ [mkAuditEvent options false (some e)])) := by
  have hrun : runWithAuthAudit cfg options fn log =
      match fn with
      | .ok v => (.ok v, log ++ [mkAuditEvent options true none])
      | .error e => (.error e, log ++ [mkAuditEvent options false (some e)]) := by
    unfold runWithAuthAudit
    rw [hauth]
    by_cases hc : (options.requirePurposeOnRead && cfg) = true
    · rw [if_pos hc, hpurp hc]
    · rw [if_neg hc]
  refine ⟨?_, ?_, ?_⟩
  · rw [hrun]
    cases fn <;> simp
  · intro v hv
    subst hv
    rw [hrun]
  · intro e he
    subst he
    rw [hrun]

/-- Witness for claim C1's amended theorem at concrete inputs: an authorized
admin call with a succeeding unit of work appends exactly one event. -/
theorem runWithAuthAudit_one_event_witness :
    assertAuthorized ⟨"a1", .admin, none⟩ "patient:write" = .ok () ∧
    (runWithAuthAudit false
      ⟨⟨"a1", .admin, none⟩, "patient:write", "update-patient", "patient",
        none, false, []⟩
      (Except.ok (7 : Nat)) []).2.length = ([] : List AuditEvent).length + 1 := by
  refine ⟨by decide, ?_⟩
  exact (runWithAuthAudit_one_event false
    ⟨⟨"a1", .admin, none⟩, "patient:write", "update-patient", "patient",
      none, false, []⟩
    (Except.ok (7 : Nat)) [] (by decide) (by decide)).1

/-- Claim C3 evaluated at the failing inputs: every code with the endodontic
prefixes D33/D34 or the crowns prefix D27 is mapped to restorative, because the
D3 and D2 prefix rules are checked earlier and win; the endodontic and crowns
branches of estimateCategoryFromAdaCode are unreachable for every input. -/
theorem estimateCategoryFromAdaCode_dead_branches :
    estimateCategoryFromAdaCode ['D', '3', '3', '1', '0'] = "restorative" ∧
    estimateCategoryFromAdaCode ['D', '3', '4', '1', '0'] = "restorative" ∧
    estimateCategoryFromAdaCode ['D', '2', '7', '4', '0'] = "restorative" ∧
    (∀ adaCode : List Char,
      estimateCategoryFromAdaCode adaCode ≠ "endodontic" ∧
      estimateCategoryFromAdaCode adaCode ≠ "crowns") := by
  refine ⟨by decide, by decide, by decide, ?_⟩
  intro adaCode
  simp only [estimateCategoryFromAdaCode]
  generalize List.map Char.toUpper adaCode = code
  split_ifs with h1 h2 h3 h4 h5 h6 h7
  · exact ⟨by decide, by decide⟩
  · exact ⟨by decide, by decide⟩
  · exfalso
    rcases h3 with h | h
    · exact h2 (Or.inl (List.IsPrefix.trans ⟨['3'], rfl⟩ h))
    · exact h2 (Or.inl (List.IsPrefix.trans ⟨['4'], rfl⟩ h))
  · exact ⟨by decide, by decide⟩
  · exact ⟨by decide, by decide⟩
  · exact absurd (Or.inr (Or.inr (List.IsPrefix.trans ⟨['7'], rfl⟩ h6))) h2
  · exact ⟨by decide, by decide⟩
  · exact ⟨by decide, by decide⟩

theorem clampPercent_getD (o : Option ℚ) :
    clampPercent o 0 = max 0 (min 100 (o.getD 0)) := by
  cases o with
  | none => simp [clampPercent]
  | some v => rfl

/-- Claim C2: estimateTreatmentPlan follows the waterfall allowed = allowedFee
else fee, primaryEstimate = allowed * clamp(primaryPct,0,100)/100, remaining =
max(0, allowed - primaryEstimate), secondaryEstimate = remaining *
clamp(secondaryPct,0,100)/100, patientEstimate = max(0, fee - primaryEstimate -
secondaryEstimate), each rounded to 2 decimals, with a missing plan treated as
0 percent; the concrete instance fee=1000, allowedFee=800, primary 80 percent,
secondary 50 percent persists 640.00 / 80.00 / 280.00. -/
theorem estimateTreatmentPlan_waterfall :
    (∀ (primary secondary : Option InsurancePlan) (item : TreatmentPlanItem),
      (estimateItemRecord primary secondary item).insuranceEstPrimary =
        round2 ((item.allowedFee.getD item.fee) *
          (max 0 (min 100 ((primary.bind fun p =>
            p.benefitPercentages (estimateCategoryFromAdaCode item.adaCode)).getD 0))) /
          100) ∧
      (estimateItemRecord primary secondary item).insuranceEstSecondary =
        round2 ((max 0 ((item.allowedFee.getD item.fee) -
            (item.allowedFee.getD item.fee) *
            (max 0 (min 100 ((primary.bind fun p =>
              p.benefitPercentages (estimateCategoryFromAdaCode item.adaCode)).getD 0))) /
            100)) *
          (max 0 (min 100 ((secondary.bind fun p =>
            p.benefitPercentages (estimateCategoryFromAdaCode item.adaCode)).getD 0))) /
          100) ∧
      (estimateItemRecord primary secondary item).patientEst =
        round2 (max 0 (item.fee -
          (item.allowedFee.getD item.fee) *
          (max 0 (min 100 ((primary.bind fun p =>
            p.benefitPercentages (estimateCategoryFromAdaCode item.adaCode)).getD 0))) /
          100 -
          (max 0 ((item.allowedFee.getD item.fee) -
            (item.allowedFee.getD item.fee) *
            (max 0 (min 100 ((primary.bind fun p =>
              p.benefitPercentages (estimateCategoryFromAdaCode item.adaCode)).getD 0))) /
            100)) *
          (max 0 (min 100 ((secondary.bind fun p =>
            p.benefitPercentages (estimateCategoryFromAdaCode item.adaCode)).getD 0))) /
          100))) ∧
    (∀ item : TreatmentPlanItem,
      (estimateItemRecord none none item).insuranceEstPrimary = 0 ∧
      (estimateItemRecord none none item).insuranceEstSecondary = 0) ∧
    ((estimateItemRecord (some ⟨fun _ => some 80⟩) (some ⟨fun _ => some 50⟩)
        ⟨['D', '2', '7', '4', '0'], 1000, some 800, 0, 0, 1000⟩).insuranceEstPrimary =
          640 ∧
     (estimateItemRecord (some ⟨fun _ => some 80⟩) (some ⟨fun _ => some 50⟩)
        ⟨['D', '2', '7', '4', '0'], 1000, some 800, 0, 0, 1000⟩).insuranceEstSecondary =
          80 ∧
     (estimateItemRecord (some ⟨fun _ => some 80⟩) (some ⟨fun _ => some 50⟩)
        ⟨['D', '2', '7', '4', '0'], 1000, some 800, 0, 0, 1000⟩).patientEst = 280) := by
  refine ⟨?_, ?_, ?_, ?_, ?_⟩
  · intro primary secondary item
    simp only [estimateItemRecord, clampPercent_getD]
    cases item.allowedFee <;>
      exact ⟨rfl, rfl, rfl⟩
  · intro item
    have h0 : clampPercent ((none : Option InsurancePlan).bind fun p =>
        p.benefitPercentages (estimateCategoryFromAdaCode item.adaCode)) 0 = 0 := rfl
    constructor
    · show round2 ((match item.allowedFee with
        | some a => a
        | none => item.fee) * 0 / 100) = 0
      rw [mul_zero, zero_div]
      exact round2_eq_of_mul 0 0 (by norm_num)
    · show round2 (_ * 0 / 100) = 0
      rw [mul_zero, zero_div]
      exact round2_eq_of_mul 0 0 (by norm_num)
  · simp only [estimateItemRecord, clampPercent, Option.bind]
    norm_num
    exact round2_eq_of_mul 640 64000 (by norm_num)
  · simp only [estimateItemRecord, clampPercent, Option.bind]
    norm_num
    exact round2_eq_of_mul 80 8000 (by norm_num)
  · simp only [estimateItemRecord, clampPercent, Option.bind]
    norm_num
    exact round2_eq_of_mul 280 28000 (by norm_num)

/-! Spec-side aggregate sums for the account snapshot. -/

def isChargeEntry (e : LedgerEntry) : Bool := e.type == .charge || e.type == .adjustment

def isCreditEntry (e : LedgerEntry) : Bool := e.type == .payment || e.type == .insurancePayment

def isClaimEntry (e : LedgerEntry) : Bool := e.type == .claim

def chargesRaw (entries : List LedgerEntry) : ℚ :=
  ((entries.filter isChargeEntry).map LedgerEntry.amount).sum

def creditsRaw (entries : List LedgerEntry) : ℚ :=
  ((entries.filter isCreditEntry).map LedgerEntry.amount).sum

def pendingRaw (entries : List LedgerEntry) : ℚ :=
  ((entries.filter isClaimEntry).map LedgerEntry.amount).sum

def agingRaw (nowMs : Int) (b : AgingBucket) (entries : List LedgerEntry) : ℚ :=
  ((entries.filter fun e =>
      isChargeEntry e && bucketByAge nowMs e.entryMs == b).map LedgerEntry.amount).sum

theorem snapStep_foldl (nowMs : Int) (entries : List LedgerEntry) :
    ∀ acc : SnapAcc,
      ((entries.foldl (snapStep nowMs) acc).charges = acc.charges + chargesRaw entries) ∧
      ((entries.foldl (snapStep nowMs) acc).credits = acc.credits + creditsRaw entries) ∧
      ((entries.foldl (snapStep nowMs) acc).pendingInsurance =
        acc.pendingInsurance + pendingRaw entries) ∧
      (∀ b, (entries.foldl (snapStep nowMs) acc).aging b =
        acc.aging b + agingRaw nowMs b entries) := by
  induction entries with
  | nil =>
    intro acc
    simp [chargesRaw, creditsRaw, pendingRaw, agingRaw]
  | cons e rest ih =>
    intro acc
    obtain ⟨ihc, ihk, ihp, iha⟩ := ih (snapStep nowMs acc e)
    have hstep :
        (snapStep nowMs acc e).charges =
          acc.charges + (if isChargeEntry e then e.amount else 0) ∧
        (snapStep nowMs acc e).credits =
          acc.credits + (if isCreditEntry e then e.amount else 0) ∧
        (snapStep nowMs acc e).pendingInsurance =
          acc.pendingInsurance + (if isClaimEntry e then e.amount else 0) ∧
        (∀ b, (snapStep nowMs acc e).aging b =
          acc.aging b +
            (if isChargeEntry e && bucketByAge nowMs e.entryMs == b
              then e.amount else 0)) := by
      cases he : e.type <;>
        simp [snapStep, he, isChargeEntry, isCreditEntry, isClaimEntry] <;>
        intro b <;>
        by_cases hb : b = bucketByAge nowMs e.entryMs <;>
        simp [hb, eq_comm]
    obtain ⟨hc, hk, hp, ha⟩ := hstep
    refine ⟨?_, ?_, ?_, ?_⟩
    · rw [List.foldl_cons, ihc, hc]
      have : chargesRaw (e :: rest) =
          (if isChargeEntry e then e.amount else 0) + chargesRaw rest := by
        by_cases hce : isChargeEntry e <;>
          simp [chargesRaw, List.filter_cons, hce]
      rw [this]
      ring
    · rw [List.foldl_cons, ihk, hk]
      have : creditsRaw (e :: rest) =
          (if isCreditEntry e then e.amount else 0) + creditsRaw rest := by
        by_cases hce : isCreditEntry e <;>
          simp [creditsRaw, List.filter_cons, hce]
      rw [this]
      ring
    · rw [List.foldl_cons, ihp, hp]
      have : pendingRaw (e :: rest) =
          (if isClaimEntry e then e.amount else 0) + pendingRaw rest := by
        by_cases hce : isClaimEntry e <;>
          simp [pendingRaw, List.filter_cons, hce]
      rw [this]
      ring
    · intro b
      rw [List.foldl_cons, iha b, ha b]
      have : agingRaw nowMs b (e :: rest) =
          (if isChargeEntry e && bucketByAge nowMs e.entryMs == b then e.amount else 0) +
            agingRaw nowMs b rest := by
        by_cases hce : (isChargeEntry e && bucketByAge nowMs e.entryMs == b) = true <;>
          simp [agingRaw, List.filter_cons, hce]
      rw [this]
      ring

/-- Claim C8: getAccountSnapshot buckets each charge/adjustment entry by whole
elapsed days with inclusive boundaries at 30/60/90 (a charge dated 45 days ago
lands in 31-60), the four buckets partition the charges, and the totals are the
rounded sums charges (charge+adjustment), credits (payment+insurance-payment),
pendingInsurance (claim), with estimatedBalance = charges - credits -
pendingInsurance rounded to 2 decimals (60.00 for 100/40/0). -/
theorem getAccountSnapshot_spec :
    (bucketByAge (30 * dayMs) 0 = .b0to30 ∧
     bucketByAge (31 * dayMs) 0 = .b31to60 ∧
     bucketByAge (45 * dayMs) 0 = .b31to60 ∧
     bucketByAge (60 * dayMs) 0 = .b31to60 ∧
     bucketByAge (61 * dayMs) 0 = .b61to90 ∧
     bucketByAge (90 * dayMs) 0 = .b61to90 ∧
     bucketByAge (91 * dayMs) 0 = .over90) ∧
    (∀ (nowMs : Int) (entries : List LedgerEntry),
      (getAccountSnapshot nowMs entries).totals.charges = round2 (chargesRaw entries) ∧
      (getAccountSnapshot nowMs entries).totals.credits = round2 (creditsRaw entries) ∧
      (getAccountSnapshot nowMs entries).totals.pendingInsurance =
        round2 (pendingRaw entries) ∧
      (getAccountSnapshot nowMs entries).totals.estimatedBalance =
        round2 (chargesRaw entries - creditsRaw entries - pendingRaw entries) ∧
      (∀ b, (getAccountSnapshot nowMs entries).aging b =
        round2 (agingRaw nowMs b entries))) ∧
    (∀ (nowMs : Int) (entries : List LedgerEntry),
      agingRaw nowMs .b0to30 entries + agingRaw nowMs .b31to60 entries +
        agingRaw nowMs .b61to90 entries + agingRaw nowMs .over90 entries =
        chargesRaw entries) ∧
    ((getAccountSnapshot (45 * dayMs)
        [⟨.charge, 100, 0⟩, ⟨.payment, 40, 40 * dayMs⟩]).aging .b31to60 = 100 ∧
     (getAccountSnapshot (45 * dayMs)
        [⟨.charge, 100, 0⟩, ⟨.payment, 40, 40 * dayMs⟩]).aging .b0to30 = 0 ∧
     (getAccountSnapshot (45 * dayMs)
        [⟨.charge, 100, 0⟩, ⟨.payment, 40, 40 * dayMs⟩]).totals.charges = 100 ∧
     (getAccountSnapshot (45 * dayMs)
        [⟨.charge, 100, 0⟩, ⟨.payment, 40, 40 * dayMs⟩]).totals.credits = 40 ∧
     (getAccountSnapshot (45 * dayMs)
        [⟨.charge, 100, 0⟩, ⟨.payment, 40, 40 * dayMs⟩]).totals.pendingInsurance = 0 ∧
     (getAccountSnapshot (45 * dayMs)
        [⟨.charge, 100, 0⟩, ⟨.payment, 40, 40 * dayMs⟩]).totals.estimatedBalance = 60) := by
  have hfold := snapStep_foldl
  refine ⟨⟨by decide, by decide, by decide, by decide, by decide, by decide, by decide⟩,
    ?_, ?_, ?_⟩
  · intro nowMs entries
    obtain ⟨hc, hk, hp, ha⟩ := hfold nowMs entries ⟨fun _ => 0, 0, 0, 0⟩
    refine ⟨?_, ?_, ?_, ?_, ?_⟩
    · simp [getAccountSnapshot, hc]
    · simp [getAccountSnapshot, hk]
    · simp [getAccountSnapshot, hp]
    · simp [getAccountSnapshot, hc, hk, hp]
    · intro b
      simp [getAccountSnapshot, ha b]
  · intro nowMs entries
    induction entries with
    | nil => simp [agingRaw, chargesRaw]
    | cons e rest ih =>
      by_cases hce : isChargeEntry e = true
      · have hsplit : ∀ b, agingRaw nowMs b (e :: rest) =
            (if bucketByAge nowMs e.entryMs = b then e.amount else 0) +
              agingRaw nowMs b rest := by
          intro b
          by_cases hb : bucketByAge nowMs e.entryMs = b <;>
            simp [agingRaw, List.filter_cons, hce, hb]
        have hch : chargesRaw (e :: rest) = e.amount + chargesRaw rest := by
          simp [chargesRaw, List.filter_cons, hce]
        rw [hsplit, hsplit, hsplit, hsplit, hch]
        cases hb : bucketByAge nowMs e.entryMs <;> simp [hb] <;> linarith
      · have hsplit : ∀ b, agingRaw nowMs b (e :: rest) = agingRaw nowMs b rest := by
          intro b
          simp [agingRaw, List.filter_cons, hce]
        have hch : chargesRaw (e :: rest) = chargesRaw rest := by
          simp [chargesRaw, List.filter_cons, hce]
        rw [hsplit, hsplit, hsplit, hsplit, hch]
        exact ih
  · have hb45 : bucketByAge (45 * dayMs) 0 = .b31to60 := by decide
    have hround0 : round2 0 = 0 := round2_eq_of_mul 0 0 (by norm_num)
    refine ⟨?_, ?_, ?_, ?_, ?_, ?_⟩ <;>
      simp only [getAccountSnapshot, List.foldl, snapStep, hb45] <;>
      norm_num <;>
      first
        | exact hround0
        | exact round2_eq_of_mul 100 10000 (by norm_num)
        | exact round2_eq_of_mul 40 4000 (by norm_num)
        | exact round2_eq_of_mul 60 6000 (by norm_num)

/-! Closed form of the candidate slot generator. -/

/-- Spec-side k-th candidate slot: start at the cursor plus k intervals, length
equal to the requested duration. -/
def mkSlot (cursor durationMinutes intervalMinutes k : Nat) : Slot :=
  ⟨cursor + k * intervalMinutes, cursor + k * intervalMinutes + durationMinutes⟩

/-- Spec-side candidate slot count: floor((end - duration - cursor) / interval)
plus one when a first slot fits, zero otherwise. -/
def slotCount (cursor endT durationMinutes intervalMinutes : Nat) : Nat :=
  if cursor + durationMinutes ≤ endT then
    (endT - durationMinutes - cursor) / intervalMinutes + 1
  else
    0

theorem slotCount_step (cursor endT d i : Nat) (hi : 0 < i)
    (h : cursor + d ≤ endT) :
    slotCount cursor endT d i = slotCount (cursor + i) endT d i + 1 := by
  by_cases h2 : cursor + i + d ≤ endT
  · rw [slotCount, if_pos h, slotCount, if_pos h2,
      Nat.div_eq_sub_div hi (by omega : i ≤ endT - d - cursor)]
    have : endT - d - cursor - i = endT - d - (cursor + i) := by omega
    rw [this]
  · rw [slotCount, if_pos h, slotCount, if_neg h2,
      Nat.div_eq_of_lt (by omega : endT - d - cursor < i)]

theorem createTimeSlotsGo_closed (d i : Nat) (hi : 0 < i) :
    ∀ (steps cursor endT : Nat), endT + 1 - cursor ≤ steps →
      createTimeSlotsGo steps cursor endT d i =
        (List.range (slotCount cursor endT d i)).map (mkSlot cursor d i) := by
  intro steps
  induction steps with
  | zero =>
    intro cursor endT hc
    have : ¬(cursor + d ≤ endT) := by omega
    simp [createTimeSlotsGo, slotCount, this]
  | succ steps ih =>
    intro cursor endT hc
    by_cases h : cursor + d ≤ endT
    · rw [createTimeSlotsGo, if_pos h, ih (cursor + i) endT (by omega),
        slotCount_step cursor endT d i hi h, List.range_succ_eq_map,
        List.map_cons, List.map_map]
      refine List.cons_eq_cons.mpr ⟨?_, ?_⟩
      · simp [mkSlot]
      · refine List.map_congr_left ?_
        intro k _
        simp only [Function.comp_apply, mkSlot, Nat.succ_eq_add_one]
        refine congrArg₂ Slot.mk ?_ ?_ <;> ring_nf
    · rw [createTimeSlotsGo, if_neg h]
      simp [slotCount, h]

theorem createTimeSlots_closed_form (cursor endT d i : Nat) (hi : 0 < i) :
    createTimeSlots cursor endT d i =
      (List.range (slotCount cursor endT d i)).map (mkSlot cursor d i) := by
  rw [createTimeSlots, if_pos hi]
  exact createTimeSlotsGo_closed d i hi _ cursor endT (Nat.le_refl _)

theorem slotAllowed_empty (slot : Slot) : slotAllowed [] [] [] slot = true := rfl

theorem interval_resolve (i : Nat) (hi : 0 < i) : (if i == 0 then 15 else i) = i := by
  have : (i == 0) = false := by
    simp [Nat.pos_iff_ne_zero.mp hi]
  rw [this]
  rfl

/-- Claim C5: with no schedule blocks and no appointments, findOpenSlots
returns exactly floor(((endHour-startHour)*60 - duration)/interval) + 1 slots,
evenly spaced interval minutes apart, the first starting at startHour:00, each
of the requested length, and none ending after endHour:00. -/
theorem findOpenSlots_empty_day (d i sh eh : Nat) (hi : 0 < i) (_hid : i ≤ d)
    (hsh : sh < eh) (hd : d ≤ (eh - sh) * 60) :
    (findOpenSlots d i sh eh [] []).length = ((eh - sh) * 60 - d) / i + 1 ∧
    (∀ k (hk : k < (findOpenSlots d i sh eh [] []).length),
      (findOpenSlots d i sh eh [] []).get ⟨k, hk⟩ =
        ⟨sh * 60 + k * i, sh * 60 + k * i + d⟩) ∧
    (∀ s ∈ findOpenSlots d i sh eh [] [],
      s.endAt = s.startAt + d ∧ s.endAt ≤ eh * 60) := by
  have hopen : findOpenSlots d i sh eh [] [] =
      (List.range (slotCount (sh * 60) (eh * 60) d i)).map (mkSlot (sh * 60) d i) := by
    rw [findOpenSlots]
    simp only [interval_resolve i hi, List.filter_nil]
    rw [List.filter_eq_self.mpr (fun s _ => slotAllowed_empty s)]
    exact createTimeSlots_closed_form (sh * 60) (eh * 60) d i hi
  have hfit : sh * 60 + d ≤ eh * 60 := by omega
  have hcount : slotCount (sh * 60) (eh * 60) d i = ((eh - sh) * 60 - d) / i + 1 := by
    rw [slotCount, if_pos hfit]
    have : eh * 60 - d - sh * 60 = (eh - sh) * 60 - d := by omega
    rw [this]
  refine ⟨?_, ?_, ?_⟩
  · rw [hopen]
    simp [hcount]
  · intro k hk
    rw [List.get_eq_getElem, List.getElem_of_eq hopen]
    simp [mkSlot]
  · intro s hs
    rw [hopen] at hs
    obtain ⟨k, hk, rfl⟩ := List.mem_map.mp hs
    have hk2 : k < slotCount (sh * 60) (eh * 60) d i := List.mem_range.mp hk
    rw [slotCount, if_pos hfit] at hk2
    have hkle : k ≤ (eh * 60 - d - sh * 60) / i := by omega
    have hmul : k * i ≤ eh * 60 - d - sh * 60 :=
      le_trans (Nat.mul_le_mul_right i hkle) (Nat.div_mul_le_self _ i)
    exact ⟨rfl, by simp only [mkSlot]; omega⟩

/-- Witness for claim C5 at concrete inputs: the default working day 08:00
to 17:00 with 30-minute slots at 15-minute granularity yields 35 slots. -/
theorem findOpenSlots_empty_day_witness :
    0 < 15 ∧ 15 ≤ 30 ∧ 8 < 17 ∧ 30 ≤ (17 - 8) * 60 ∧
    (findOpenSlots 30 15 8 17 [] []).length = ((17 - 8) * 60 - 30) / 15 + 1 := by
  refine ⟨by decide, by decide, by decide, by decide, ?_⟩
  exact (findOpenSlots_empty_day 30 15 8 17 (by decide) (by decide) (by decide)
    (by decide)).1

theorem slotAllowed_conditions (availableBlocks blockingBlocks : List ScheduleBlock)
    (appointments : List Appointment) (slot : Slot)
    (h : slotAllowed availableBlocks blockingBlocks appointments slot = true) :
    (availableBlocks.length > 0 →
      (availableBlocks.any fun block =>
        decide (block.startAt ≤ slot.startAt) && decide (slot.endAt ≤ block.endAt)) = true) ∧
    (appointments.any fun appointment =>
      overlap slot.startAt slot.endAt appointment.startAt appointment.endAt) = false ∧
    (blockingBlocks.any fun block =>
      overlap slot.startAt slot.endAt block.startAt block.endAt) = false := by
  unfold slotAllowed at h
  by_cases h1 : (availableBlocks.length > 0 &&
      !(availableBlocks.any fun block =>
        decide (block.startAt ≤ slot.startAt) && decide (slot.endAt ≤ block.endAt))) = true
  · rw [if_pos h1] at h
    exact absurd h (by simp)
  · rw [if_neg h1] at h
    by_cases h2 : (appointments.any fun appointment =>
        overlap slot.startAt slot.endAt appointment.startAt appointment.endAt) = true
    · rw [if_pos h2] at h
      exact absurd h (by simp)
    · rw [if_neg h2] at h
      by_cases h3 : (blockingBlocks.any fun block =>
          overlap slot.startAt slot.endAt block.startAt block.endAt) = true
      · rw [if_pos h3] at h
        exact absurd h (by simp)
      · refine ⟨?_, by simpa using h2, by simpa using h3⟩
        intro hlen
        by_contra hav
        apply h1
        simp only [Bool.and_eq_true, Bool.not_eq_true']
        exact ⟨by simpa using hlen, by simpa using hav⟩

/-- Claim C6: when at least one available block exists for the day, every
returned slot is fully contained (closed containment) in some available block;
when none exists the containment constraint is not applied at all, so the
result is exactly the base slots filtered only by the appointment and blocking
overlap tests. -/
theorem findOpenSlots_availability (d i sh eh : Nat)
    (appointments : List Appointment) (providerBlocks : List ScheduleBlock) :
    ((providerBlocks.filter fun block => block.blockType == .available) ≠ [] →
      ∀ slot ∈ findOpenSlots d i sh eh appointments providerBlocks,
        ∃ block ∈ providerBlocks, block.blockType = .available ∧
          block.startAt ≤ slot.startAt ∧ slot.endAt ≤ block.endAt) ∧
    ((providerBlocks.filter fun block => block.blockType == .available) = [] →
      findOpenSlots d i sh eh appointments providerBlocks =
        (createTimeSlots (sh * 60) (eh * 60) d (if i == 0 then 15 else i)).filter
          fun slot =>
            !(appointments.any fun appointment =>
                overlap slot.startAt slot.endAt appointment.startAt appointment.endAt) &&
            !((providerBlocks.filter isBlocking).any fun block =>
                overlap slot.startAt slot.endAt block.startAt block.endAt)) := by
  constructor
  · intro hne slot hmem
    rw [findOpenSlots] at hmem
    obtain ⟨hbase, hallow⟩ := List.mem_filter.mp hmem
    have hlen : (providerBlocks.filter fun block => block.blockType == .available).length > 0 :=
      List.length_pos.mpr hne
    have hany := (slotAllowed_conditions _ _ _ _ hallow).1 hlen
    obtain ⟨block, hbmem, hbp⟩ := List.any_eq_true.mp hany
    obtain ⟨hbmem2, hbtype⟩ := List.mem_filter.mp hbmem
    simp only [Bool.and_eq_true, decide_eq_true_eq] at hbp
    exact ⟨block, hbmem2, by simpa using hbtype, hbp.1, hbp.2⟩
  · intro he
    rw [findOpenSlots]
    simp only [he]
    refine List.filter_congr ?_
    intro slot _
    unfold slotAllowed
    simp only [List.length_nil, gt_iff_lt, Nat.lt_irrefl, decide_False, Bool.false_and,
      Bool.false_eq_true, if_false]
    by_cases h2 : (appointments.any fun appointment =>
        overlap slot.startAt slot.endAt appointment.startAt appointment.endAt) = true
    · simp [h2]
    · by_cases h3 : ((providerBlocks.filter isBlocking).any fun block =>
          overlap slot.startAt slot.endAt block.startAt block.endAt) = true
      · simp [h2, h3]
      · simp [h2, h3]

/-- Witness for claim C6 at the concrete scenario from the spec: one available
block 09:00-12:00 and 30-minute slots at 15-minute granularity over a working
window of 08:00-17:00 — every returned slot is contained in the block, so no
slot lies outside 09:00-12:00. -/
theorem findOpenSlots_availability_witness :
    ([⟨540, 720, BlockType.available⟩] :
        List ScheduleBlock).filter (fun block => block.blockType == .available) ≠ [] ∧
    (∀ slot ∈ findOpenSlots 30 15 8 17 [] [⟨540, 720, BlockType.available⟩],
      ∃ block ∈ [(⟨540, 720, BlockType.available⟩ : ScheduleBlock)],
        block.blockType = .available ∧
        block.startAt ≤ slot.startAt ∧ slot.endAt ≤ block.endAt) := by
  refine ⟨by decide, ?_⟩
  exact (findOpenSlots_availability 30 15 8 17 [] [⟨540, 720, .available⟩]).1 (by decide)

/-- Claim C7: overlap implements half-open interval intersection — true exactly
when a < d and b > c, false on touching endpoints — and no slot returned by
findOpenSlots overlaps any appointment or any blocking schedule block (booked,
break, or hold) considered for that day. -/
theorem findOpenSlots_no_overlap :
    (∀ a b c d : Nat, overlap a b c d = true ↔ a < d ∧ b > c) ∧
    (∀ a b d : Nat, overlap a b b d = false) ∧
    (∀ (d i sh eh : Nat) (appointments : List Appointment)
        (providerBlocks : List ScheduleBlock),
      ∀ slot ∈ findOpenSlots d i sh eh appointments providerBlocks,
        (∀ appointment ∈ appointments,
          overlap slot.startAt slot.endAt appointment.startAt appointment.endAt = false) ∧
        (∀ block ∈ providerBlocks,
          (block.blockType = .booked ∨ block.blockType = .break_ ∨
            block.blockType = .hold) →
          overlap slot.startAt slot.endAt block.startAt block.endAt = false)) := by
  refine ⟨?_, ?_, ?_⟩
  · intro a b c d
    simp [overlap]
  · intro a b d
    simp [overlap]
  · intro d i sh eh appointments providerBlocks slot hmem
    rw [findOpenSlots] at hmem
    obtain ⟨hbase, hallow⟩ := List.mem_filter.mp hmem
    obtain ⟨_, hapts, hblocks⟩ := slotAllowed_conditions _ _ _ _ hallow
    constructor
    · intro appointment ha
      exact Bool.not_eq_true _ ▸ List.any_eq_false.mp hapts appointment ha
    · intro block hb htype
      have hmem2 : block ∈ providerBlocks.filter isBlocking := by
        refine List.mem_filter.mpr ⟨hb, ?_⟩
        rcases htype with h | h | h <;> simp [isBlocking, h]
      exact Bool.not_eq_true _ ▸ List.any_eq_false.mp hblocks block hmem2

/-- Witness for claim C7 at concrete inputs: the 08:00 slot returned around a
10:00 appointment and a booked block does not overlap either, and touching
endpoints do not count as overlap. -/
theorem findOpenSlots_no_overlap_witness :
    overlap 480 510 510 540 = false ∧
    (overlap 480 510 500 520 = true ↔ 480 < 520 ∧ 510 > 500) ∧
    ((⟨480, 510⟩ : Slot) ∈
      findOpenSlots 30 15 8 10 [⟨600, 630⟩] [⟨570, 600, .booked⟩] →
      (∀ appointment ∈ [(⟨600, 630⟩ : Appointment)],
        overlap 480 510 appointment.startAt appointment.endAt = false) ∧
      (∀ block ∈ [(⟨570, 600, BlockType.booked⟩ : ScheduleBlock)],
        (block.blockType = .booked ∨ block.blockType = .break_ ∨
          block.blockType = .hold) →
        overlap 480 510 block.startAt block.endAt = false)) := by
  refine ⟨findOpenSlots_no_overlap.2.1 480 510 540,
    findOpenSlots_no_overlap.1 480 510 500 520, ?_⟩
  intro hmem
  exact findOpenSlots_no_overlap.2.2 30 15 8 10 [⟨600, 630⟩] [⟨570, 600, .booked⟩]
    ⟨480, 510⟩ hmem

/-! Lemmas about the family store and member merge. -/

/-- Spec-side count of member entries for one patient id in a member list. -/
def memberCount (patientId : String) (members : List FamilyMember) : Nat :=
  (members.filter fun m => m.patientId == patientId).length

theorem mem_saveList {l : List FamilyRecord} {f x : FamilyRecord}
    (h : x ∈ saveList l f) : x ∈ l ∨ x = f := by
  unfold saveList at h
  by_cases hany : (l.any fun g => g.id == f.id) = true
  · rw [if_pos hany] at h
    obtain ⟨a, ha, hax⟩ := List.mem_map.mp h
    by_cases hid : (a.id == f.id) = true
    · rw [if_pos hid] at hax
      exact Or.inr hax.symm
    · rw [if_neg hid] at hax
      exact Or.inl (hax ▸ ha)
  · rw [if_neg hany] at h
    rcases List.mem_append.mp h with h | h
    · exact Or.inl h
    · exact Or.inr (List.mem_singleton.mp h)

theorem find?_replace_id (f : FamilyRecord) :
    ∀ l : List FamilyRecord, (l.any fun g => g.id == f.id) = true →
      (((l.map fun g => if g.id == f.id then f else g).find? fun g => g.id == f.id) =
        some f) := by
  intro l
  induction l with
  | nil => intro hany; simp at hany
  | cons e rest ih =>
    intro hany
    by_cases he : (e.id == f.id) = true
    · rw [List.map_cons, if_pos he, List.find?_cons_of_pos _ (by simp)]
    · have hrest : (rest.any fun g => g.id == f.id) = true := by
        simpa [List.any_cons, he] using hany
      rw [List.map_cons, if_neg he, List.find?_cons_of_neg _ (by simpa using he)]
      exact ih hrest

theorem find?_id_saveList (l : List FamilyRecord) (f : FamilyRecord) :
    ((saveList l f).find? fun g => g.id == f.id) = some f := by
  unfold saveList
  by_cases hany : (l.any fun g => g.id == f.id) = true
  · rw [if_pos hany]
    exact find?_replace_id f l hany
  · rw [if_neg hany, List.find?_append, List.find?_eq_none.mpr, Option.none_or]
    · rw [List.find?_cons_of_pos _ (by simp)]
    · intro x hx
      exact fun hp => hany (List.any_eq_true.mpr ⟨x, hx, hp⟩)

theorem find?_id_saveList_none (l : List FamilyRecord) (f : FamilyRecord)
    (fid : String) (h : ∀ x ∈ l, x.id ≠ fid) (hne : f.id ≠ fid) :
    ((saveList l f).find? fun g => g.id == fid) = none := by
  refine List.find?_eq_none.mpr ?_
  intro x hx
  rcases mem_saveList hx with hm | rfl
  · simp [h x hm]
  · simp [hne]

theorem find?_replace_of_found (u f0 : FamilyRecord) (g : String)
    (hid : f0.id = u.id) (hg : u.guarantorPatientId = g) :
    ∀ l : List FamilyRecord,
      (l.find? fun x => x.guarantorPatientId == g) = some f0 →
      (((l.map fun x => if x.id == u.id then u else x).find?
        fun x => x.guarantorPatientId == g) = some u) := by
  intro l
  induction l with
  | nil => intro h; simp [List.find?] at h
  | cons e rest ih =>
    intro h
    by_cases hge : (e.guarantorPatientId == g) = true
    · have he0 : e = f0 := by
        have h2 := h
        simp only [List.find?_cons, hge] at h2
        exact Option.some.inj h2
      have heid : (e.id == u.id) = true := by simp [he0, hid]
      rw [List.map_cons, if_pos heid, List.find?_cons_of_pos _ (by simp [hg])]
    · have hge' : (e.guarantorPatientId == g) = false := by simpa using hge
      have hrest : (rest.find? fun x => x.guarantorPatientId == g) = some f0 := by
        simpa only [List.find?_cons, hge'] using h
      by_cases heid : (e.id == u.id) = true
      · rw [List.map_cons, if_pos heid, List.find?_cons_of_pos _ (by simp [hg])]
      · rw [List.map_cons, if_neg heid,
          List.find?_cons_of_neg _ (by simpa using hge)]
        exact ih hrest

theorem find?_guarantor_saveList_of_found (l : List FamilyRecord)
    (u f0 : FamilyRecord) (g : String)
    (h : (l.find? fun x => x.guarantorPatientId == g) = some f0)
    (hid : f0.id = u.id) (hg : u.guarantorPatientId = g) :
    ((saveList l u).find? fun x => x.guarantorPatientId == g) = some u := by
  have hany : (l.any fun x => x.id == u.id) = true :=
    List.any_eq_true.mpr ⟨f0, List.mem_of_find?_eq_some h, by simp [hid]⟩
  unfold saveList
  rw [if_pos hany]
  exact find?_replace_of_found u f0 g hid hg l h

theorem find?_replace_of_all_false (u : FamilyRecord) (g : String)
    (hg : u.guarantorPatientId = g) :
    ∀ l : List FamilyRecord,
      (∀ x ∈ l, (x.guarantorPatientId == g) = false) →
      (l.any fun x => x.id == u.id) = true →
      (((l.map fun x => if x.id == u.id then u else x).find?
        fun x => x.guarantorPatientId == g) = some u) := by
  intro l
  induction l with
  | nil => intro _ hany; simp at hany
  | cons e rest ih =>
    intro hall hany
    by_cases heid : (e.id == u.id) = true
    · rw [List.map_cons, if_pos heid, List.find?_cons_of_pos _ (by simp [hg])]
    · have hrest : (rest.any fun x => x.id == u.id) = true := by
        simpa [List.any_cons, heid] using hany
      rw [List.map_cons, if_neg heid, List.find?_cons_of_neg _
        (by simpa using hall e (List.mem_cons_self e rest))]
      exact ih (fun x hx => hall x (List.mem_cons_of_mem e hx)) hrest

theorem find?_guarantor_saveList_of_none (l : List FamilyRecord)
    (u : FamilyRecord) (g : String)
    (h : (l.find? fun x => x.guarantorPatientId == g) = none)
    (hg : u.guarantorPatientId = g) :
    ((saveList l u).find? fun x => x.guarantorPatientId == g) = some u := by
  have hall : ∀ x ∈ l, (x.guarantorPatientId == g) = false := by
    intro x hx
    have := List.find?_eq_none.mp h x hx
    simpa using this
  unfold saveList
  by_cases hany : (l.any fun x => x.id == u.id) = true
  · rw [if_pos hany]
    exact find?_replace_of_all_false u g hg l hall hany
  · rw [if_neg hany, List.find?_append, h, Option.none_or]
    rw [List.find?_cons_of_pos _ (by simp [hg])]

theorem length_updateFirstMember (ms : List FamilyMember) (pid rel : String) :
    (updateFirstMember ms pid rel).length = ms.length := by
  induction ms with
  | nil => rfl
  | cons m rest ih =>
    unfold updateFirstMember
    by_cases hm : (m.patientId == pid) = true
    · rw [if_pos hm]
      rfl
    · rw [if_neg hm]
      simp [ih]

theorem memberCount_updateFirstMember (ms : List FamilyMember) (pid rel : String) :
    memberCount pid (updateFirstMember ms pid rel) = memberCount pid ms := by
  induction ms with
  | nil => rfl
  | cons m rest ih =>
    unfold updateFirstMember
    by_cases hm : (m.patientId == pid) = true
    · rw [if_pos hm]
      simp [memberCount, List.filter_cons, hm]
    · rw [if_neg hm]
      simp only [memberCount, List.filter_cons, hm]
      simpa [memberCount] using ih

theorem memberCount_applyMember (ms : List FamilyMember) (pid rel : String)
    (hle : memberCount pid ms ≤ 1) :
    memberCount pid (applyMember ms pid rel) = 1 := by
  unfold applyMember
  by_cases hany : (ms.any fun m => m.patientId == pid) = true
  · rw [if_pos hany, memberCount_updateFirstMember]
    obtain ⟨m, hm, hp⟩ := List.any_eq_true.mp hany
    have hmem : m ∈ ms.filter fun m => m.patientId == pid :=
      List.mem_filter.mpr ⟨hm, hp⟩
    have hpos : 0 < memberCount pid ms := by
      have := List.length_pos.mpr (List.ne_nil_of_mem hmem)
      simpa [memberCount] using this
    omega
  · rw [if_neg hany]
    have hnil : (ms.filter fun m => m.patientId == pid) = [] := by
      refine List.filter_eq_nil_iff.mpr ?_
      intro m hm
      exact fun hp => hany (List.any_eq_true.mpr ⟨m, hm, hp⟩)
    simp [memberCount, List.filter_append, hnil]

theorem length_applyMember_of_pos (ms : List FamilyMember) (pid rel : String)
    (hpos : 0 < memberCount pid ms) :
    (applyMember ms pid rel).length = ms.length := by
  have hne : (ms.filter fun m => m.patientId == pid) ≠ [] := by
    intro hnil
    rw [memberCount, hnil] at hpos
    exact absurd hpos (by simp)
  obtain ⟨m, hm⟩ := List.exists_mem_of_ne_nil _ hne
  obtain ⟨hmem, hp⟩ := List.mem_filter.mp hm
  have hany : (ms.any fun m => m.patientId == pid) = true :=
    List.any_eq_true.mpr ⟨m, hmem, hp⟩
  rw [applyMember, if_pos hany]
  exact length_updateFirstMember ms pid rel

theorem relation_updateFirstMember (ms : List FamilyMember) (pid rel : String)
    (hle : memberCount pid ms ≤ 1) :
    ∀ m ∈ (updateFirstMember ms pid rel).filter fun m => m.patientId == pid,
      m.relationToGuarantor = rel := by
  induction ms with
  | nil => simp [updateFirstMember]
  | cons m rest ih =>
    unfold updateFirstMember
    by_cases hm : (m.patientId == pid) = true
    · rw [if_pos hm]
      have hrest : (rest.filter fun m => m.patientId == pid) = [] := by
        have hsum : memberCount pid (m :: rest) = 1 + memberCount pid rest := by
          simp [memberCount, List.filter_cons, hm, Nat.add_comm]
        have hz : memberCount pid rest = 0 := by omega
        unfold memberCount at hz
        exact List.length_eq_zero.mp hz
      intro x hx
      rw [List.filter_cons] at hx
      simp only [hm] at hx
      rw [hrest] at hx
      have : x = { m with relationToGuarantor := rel } := by
        simpa using hx
      rw [this]
    · rw [if_neg hm]
      have hle2 : memberCount pid rest ≤ 1 := by
        simpa [memberCount, List.filter_cons, hm] using hle
      intro x hx
      rw [List.filter_cons] at hx
      simp only [hm] at hx
      exact ih hle2 x (by simpa using hx)

theorem relation_applyMember (ms : List FamilyMember) (pid rel : String)
    (hle : memberCount pid ms ≤ 1) :
    ∀ m ∈ (applyMember ms pid rel).filter fun m => m.patientId == pid,
      m.relationToGuarantor = rel := by
  unfold applyMember
  by_cases hany : (ms.any fun m => m.patientId == pid) = true
  · rw [if_pos hany]
    exact relation_updateFirstMember ms pid rel hle
  · rw [if_neg hany]
    have hnil : (ms.filter fun m => m.patientId == pid) = [] := by
      refine List.filter_eq_nil_iff.mpr ?_
      intro m hm
      exact fun hp => hany (List.any_eq_true.mpr ⟨m, hm, hp⟩)
    intro x hx
    rw [List.filter_append, hnil, List.nil_append] at hx
    have : x = (⟨pid, rel, false⟩ : FamilyMember) := by
      simpa using hx
    rw [this]

theorem locateFamily_mem {s : OpsState} {fid : Option String} {g : String}
    {f : FamilyRecord} (h : locateFamily s fid g = some f) : f ∈ s.families := by
  cases fid with
  | none => exact List.mem_of_find?_eq_some h
  | some x =>
    cases hfi : findFamilyById s x with
    | some f0 =>
      simp only [locateFamily, hfi] at h
      have : f0 = f := Option.some.inj h
      exact this ▸ List.mem_of_find?_eq_some hfi
    | none =>
      simp only [locateFamily, hfi] at h
      exact List.mem_of_find?_eq_some h

/-- Claim C9: upsertFamily fails without touching the state when either patient
is missing; for existing patients in a store whose families hold at most one
entry per member, two identical calls both succeed, the family ends with
exactly one member entry for the member patient carrying the requested
relation, and the second call changes no member count (it updates in place
rather than appending a duplicate). -/
theorem upsertFamily_idempotent :
    ∀ (input : UpsertFamilyInput) (fresh1 fresh2 : String) (t1 t2 : Nat)
      (s : OpsState),
      (¬(input.guarantorPatientId ∈ s.patients ∧
          input.memberPatientId ∈ s.patients) →
        upsertFamily input fresh1 t1 s =
          (.error "Guarantor and member must both exist", s)) ∧
      (input.guarantorPatientId ∈ s.patients →
       input.memberPatientId ∈ s.patients →
       (∀ f ∈ s.families, memberCount input.memberPatientId f.members ≤ 1) →
       ∃ f1 f2 : FamilyRecord,
         (upsertFamily input fresh1 t1 s).1 = .ok f1 ∧
         (upsertFamily input fresh2 t2 (upsertFamily input fresh1 t1 s).2).1 =
           .ok f2 ∧
         memberCount input.memberPatientId f1.members = 1 ∧
         memberCount input.memberPatientId f2.members = 1 ∧
         f2.members.length = f1.members.length ∧
         (∀ m ∈ f2.members.filter fun m => m.patientId == input.memberPatientId,
           m.relationToGuarantor = input.relationToGuarantor)) := by
  intro input fresh1 fresh2 t1 t2 s
  constructor
  · intro hne
    simp only [upsertFamily, if_neg hne]
  · intro hg hm hcount
    have hP : input.guarantorPatientId ∈ s.patients ∧
        input.memberPatientId ∈ s.patients := ⟨hg, hm⟩
    set fam1 : FamilyRecord :=
      (locateFamily s input.familyId input.guarantorPatientId).getD
        (newFamily input fresh1 t1) with hfam1
    set u1 : FamilyRecord :=
      { fam1 with
          members := applyMember fam1.members input.memberPatientId
            input.relationToGuarantor
          updatedAt := t1 } with hu1
    have hcall1 : upsertFamily input fresh1 t1 s = (.ok u1, saveFamily s u1) := by
      simp only [upsertFamily, if_pos hP]
    have hcnt_fam1 : memberCount input.memberPatientId fam1.members ≤ 1 := by
      rcases hloc : locateFamily s input.familyId input.guarantorPatientId with _ | f0
      · rw [hfam1, hloc]
        refine le_trans (List.length_filter_le _ _) ?_
        simp [newFamily]
      · rw [hfam1, hloc]
        exact hcount f0 (locateFamily_mem hloc)
    have hcnt_u1 : memberCount input.memberPatientId u1.members = 1 :=
      memberCount_applyMember _ _ _ hcnt_fam1
    have hloc2 : locateFamily (saveFamily s u1) input.familyId
        input.guarantorPatientId = some u1 := by
      cases hfid : input.familyId with
      | none =>
        show findFamilyByGuarantor (saveFamily s u1) input.guarantorPatientId =
          some u1
        cases hfg : findFamilyByGuarantor s input.guarantorPatientId with
        | some f0 =>
          have hfameq : fam1 = f0 := by
            rw [hfam1]
            simp only [hfid, locateFamily, hfg, Option.getD_some, Option.getD_none]
          have hguar : u1.guarantorPatientId = input.guarantorPatientId := by
            have := List.find?_some hfg
            have heq : f0.guarantorPatientId = input.guarantorPatientId := by
              simpa using this
            show fam1.guarantorPatientId = input.guarantorPatientId
            rw [hfameq]
            exact heq
          exact find?_guarantor_saveList_of_found s.families u1 f0
            input.guarantorPatientId hfg (by show f0.id = fam1.id; rw [hfameq]) hguar
        | none =>
          have hfameq : fam1 = newFamily input fresh1 t1 := by
            rw [hfam1]
            simp only [hfid, locateFamily, hfg, Option.getD_some, Option.getD_none]
          have hguar : u1.guarantorPatientId = input.guarantorPatientId := by
            show fam1.guarantorPatientId = input.guarantorPatientId
            rw [hfameq]
            rfl
          exact find?_guarantor_saveList_of_none s.families u1
            input.guarantorPatientId hfg hguar
      | some fid =>
        cases hfi : findFamilyById s fid with
        | some f0 =>
          have hfameq : fam1 = f0 := by
            rw [hfam1]
            simp only [hfid, locateFamily, hfi, Option.getD_some]
          have hidf : u1.id = fid := by
            have := List.find?_some hfi
            have heq : f0.id = fid := by simpa using this
            show fam1.id = fid
            rw [hfameq]
            exact heq
          have hfind : findFamilyById (saveFamily s u1) fid = some u1 := by
            show ((saveList s.families u1).find? fun f => f.id == fid) = some u1
            rw [← hidf]
            exact find?_id_saveList s.families u1
          simp only [locateFamily, hfind]
        | none =>
          have hall : ∀ x ∈ s.families, x.id ≠ fid := by
            intro x hx
            have := List.find?_eq_none.mp hfi x hx
            simpa using this
          cases hfg : findFamilyByGuarantor s input.guarantorPatientId with
          | some f0 =>
            have hfameq : fam1 = f0 := by
              rw [hfam1]
              simp only [hfid, locateFamily, hfi, hfg, Option.getD_some,
                Option.getD_none]
            have hne : u1.id ≠ fid := by
              show fam1.id ≠ fid
              rw [hfameq]
              exact hall f0 (List.mem_of_find?_eq_some hfg)
            have hnone : findFamilyById (saveFamily s u1) fid = none :=
              find?_id_saveList_none s.families u1 fid hall hne
            have hguar : u1.guarantorPatientId = input.guarantorPatientId := by
              have := List.find?_some hfg
              have heq : f0.guarantorPatientId = input.guarantorPatientId := by
                simpa using this
              show fam1.guarantorPatientId = input.guarantorPatientId
              rw [hfameq]
              exact heq
            have hfound : findFamilyByGuarantor (saveFamily s u1)
                input.guarantorPatientId = some u1 :=
              find?_guarantor_saveList_of_found s.families u1 f0
                input.guarantorPatientId hfg (by show f0.id = fam1.id; rw [hfameq])
                hguar
            simp only [locateFamily, hnone, hfound]
          | none =>
            have hfameq : fam1 = newFamily input fresh1 t1 := by
              rw [hfam1]
              simp only [hfid, locateFamily, hfi, hfg, Option.getD_some,
                Option.getD_none]
            have hidf : u1.id = fid := by
              show fam1.id = fid
              rw [hfameq]
              show (input.familyId.getD fresh1) = fid
              rw [hfid]
              rfl
            have hfind : findFamilyById (saveFamily s u1) fid = some u1 := by
              show ((saveList s.families u1).find? fun f => f.id == fid) = some u1
              rw [← hidf]
              exact find?_id_saveList s.families u1
            simp only [locateFamily, hfind]
    have hP2 : input.guarantorPatientId ∈ (saveFamily s u1).patients ∧
        input.memberPatientId ∈ (saveFamily s u1).patients := hP
    set u2 : FamilyRecord :=
      { u1 with
          members := applyMember u1.members input.memberPatientId
            input.relationToGuarantor
          updatedAt := t2 } with hu2
    have hcall2 : upsertFamily input fresh2 t2 (saveFamily s u1) =
        (.ok u2, saveFamily (saveFamily s u1) u2) := by
      simp only [upsertFamily, if_pos hP2, hloc2, Option.getD_some]
    refine ⟨u1, u2, ?_, ?_, hcnt_u1, ?_, ?_, ?_⟩
    · rw [hcall1]
    · rw [hcall1]
      rw [hcall2]
    · exact memberCount_applyMember _ _ _ (by omega)
    · exact length_applyMember_of_pos _ _ _ (by omega)
    · exact relation_applyMember _ _ _ (by omega)

/-- Witness for claim C9 at concrete inputs: linking the same spouse twice to
the same guarantor in a two-patient store leaves one member entry. -/
theorem upsertFamily_idempotent_witness :
    "g" ∈ (⟨["g", "m"], []⟩ : OpsState).patients ∧
    "m" ∈ (⟨["g", "m"], []⟩ : OpsState).patients ∧
    (∃ f1 f2 : FamilyRecord,
      (upsertFamily ⟨"g", "m", "spouse", none⟩ "f1" 5 ⟨["g", "m"], []⟩).1 = .ok f1 ∧
      (upsertFamily ⟨"g", "m", "spouse", none⟩ "f2" 6
        (upsertFamily ⟨"g", "m", "spouse", none⟩ "f1" 5 ⟨["g", "m"], []⟩).2).1 =
        .ok f2 ∧
      memberCount "m" f1.members = 1 ∧
      memberCount "m" f2.members = 1 ∧
      f2.members.length = f1.members.length ∧
      (∀ m ∈ f2.members.filter fun m => m.patientId == "m",
        m.relationToGuarantor = "spouse")) := by
  refine ⟨by decide, by decide, ?_⟩
  exact (upsertFamily_idempotent ⟨"g", "m", "spouse", none⟩ "f1" "f2" 5 6
    ⟨["g", "m"], []⟩).2 (by decide) (by decide) (by simp)

end Dentropic
